import Mathlib

/-!
# Verification of the cirf resource compiler

Shallow embedding of the cirf build-time resource compiler:
the VFS builder (`src/vfs.c`), the manifest interpreter (`src/config.c`),
the code generator's indexing/emission passes (`src/codegen.c`), and the
runtime navigation library (`src/runtime.c`).

C strings are modelled as `List Char` (byte strings without the NUL
terminator); machine pointers to tree nodes are modelled by the subtree
value itself, with in-place mutation rendered as functional update at the
node's location.
-/

set_option maxRecDepth 40000

/-- A C string (without its terminating NUL). -/
abbrev Str := List Char

/-! ## String helpers shared by the C sources -/

/-- Splits `p` at the LAST occurrence of `ch`:
`splitLastC ch p = some (before, after)` with `p = before ++ ch :: after`,
or `none` when `ch` does not occur.  Mirrors C `strrchr`-based splitting. -/
def splitLastC (ch : Char) : Str → Option (Str × Str)
  | [] => none
  | c :: rest =>
    match splitLastC ch rest with
    | some (a, b) => some (c :: a, b)
    | none => if c = ch then some ([], rest) else none

/-- Accumulator worker for `tokens`. -/
def tokensAux : Str → Str → List Str
  | [], acc => if acc = [] then [] else [acc.reverse]
  | c :: rest, acc =>
    if c = '/' then
      if acc = [] then tokensAux rest []
      else acc.reverse :: tokensAux rest []
    else tokensAux rest (c :: acc)

/-- The maximal nonempty runs of non-`'/'` characters of `p`, in order.
This is exactly the token sequence `strtok_r(p, "/", ..)` produces in
`vfs_find_folder` / `vfs_ensure_folder`, and the component sequence the
runtime's `cirf_find_folder` walks. -/
def tokens (p : Str) : List Str := tokensAux p []

/-- Embedding of `path_dirname` from `src/config.c`: everything before the last `'/'`;
`""` when there is no slash; `"/"` when the last slash is the first byte. -/
def path_dirname (p : Str) : Str :=
  match splitLastC '/' p with
  | none => []
  | some ([], _) => ['/']
  | some (a, _) => a

/-- Embedding of `path_basename` from `src/config.c`: everything after the last `'/'`,
or the whole string when there is no slash. -/
def path_basename (p : Str) : Str :=
  match splitLastC '/' p with
  | none => p
  | some (_, b) => b

/-- The `while(b[0]=='.' && b[1]=='/') b += 2;` loop of `path_join`. -/
def stripDotSlash : Str → Str
  | '.' :: '/' :: rest => stripDotSlash rest
  | s => s

/-- Embedding of `path_join` from `src/config.c`: returns `b` when `a` is empty, `a`
when `b` is empty; otherwise strips leading `"./"` repetitions from `b`
and concatenates with a single separator unless `a` already ends in `'/'`. -/
def path_join (a b : Str) : Str :=
  if a = [] then b
  else if b = [] then a
  else
    let b2 := stripDotSlash b
    if a.getLast? = some '/' then a ++ b2 else a ++ '/' :: b2

/-- The path-building rule shared by `vfs_add_folder` and `vfs_add_file`:
`parent->path` + `'/'` + `name`, or just `name` when the parent's path is
empty (the root). -/
def joinPath (parentPath name : Str) : Str :=
  if parentPath = [] then name else parentPath ++ '/' :: name

/-! ## MIME lookup (`src/mime.c`) -/

/-- Embedding of `tolower` in the C locale: maps `A`–`Z` to `a`–`z`, fixes the rest. -/
def asciiLower (c : Char) : Char :=
  if 'A' ≤ c ∧ c ≤ 'Z' then Char.ofNat (c.toNat + 32) else c

/-- Embedding of `strcasecmp_local(s1, s2) == 0`: the two strings agree up to
`tolower`. -/
def caseEq (a b : Str) : Bool := a.map asciiLower = b.map asciiLower

/-- The extension → MIME table of `src/mime.c` (`MIME_TYPE_LIST`). -/
def mime_table : List (Str × Str) :=
  [ ("txt".data, "text/plain".data), ("text".data, "text/plain".data),
    ("html".data, "text/html".data), ("htm".data, "text/html".data),
    ("css".data, "text/css".data), ("csv".data, "text/csv".data),
    ("js".data, "application/javascript".data),
    ("mjs".data, "application/javascript".data),
    ("json".data, "application/json".data),
    ("xml".data, "application/xml".data),
    ("xhtml".data, "application/xhtml+xml".data),
    ("pdf".data, "application/pdf".data),
    ("zip".data, "application/zip".data),
    ("gz".data, "application/gzip".data),
    ("tar".data, "application/x-tar".data),
    ("rar".data, "application/vnd.rar".data),
    ("7z".data, "application/x-7z-compressed".data),
    ("png".data, "image/png".data), ("jpg".data, "image/jpeg".data),
    ("jpeg".data, "image/jpeg".data), ("gif".data, "image/gif".data),
    ("bmp".data, "image/bmp".data), ("webp".data, "image/webp".data),
    ("svg".data, "image/svg+xml".data), ("ico".data, "image/x-icon".data),
    ("tiff".data, "image/tiff".data), ("tif".data, "image/tiff".data),
    ("woff".data, "font/woff".data), ("woff2".data, "font/woff2".data),
    ("ttf".data, "font/ttf".data), ("otf".data, "font/otf".data),
    ("eot".data, "application/vnd.ms-fontobject".data),
    ("wav".data, "audio/wav".data), ("mp3".data, "audio/mpeg".data),
    ("ogg".data, "audio/ogg".data), ("oga".data, "audio/ogg".data),
    ("flac".data, "audio/flac".data), ("aac".data, "audio/aac".data),
    ("m4a".data, "audio/mp4".data), ("mp4".data, "video/mp4".data),
    ("webm".data, "video/webm".data), ("avi".data, "video/x-msvideo".data),
    ("mkv".data, "video/x-matroska".data),
    ("mov".data, "video/quicktime".data), ("ogv".data, "video/ogg".data),
    ("glsl".data, "text/plain".data), ("vert".data, "text/plain".data),
    ("frag".data, "text/plain".data), ("hlsl".data, "text/plain".data),
    ("c".data, "text/x-c".data), ("h".data, "text/x-c".data),
    ("cpp".data, "text/x-c++".data), ("hpp".data, "text/x-c++".data),
    ("cc".data, "text/x-c++".data), ("hh".data, "text/x-c++".data),
    ("py".data, "text/x-python".data), ("rb".data, "text/x-ruby".data),
    ("rs".data, "text/x-rust".data), ("go".data, "text/x-go".data),
    ("java".data, "text/x-java".data), ("sh".data, "application/x-sh".data),
    ("bash".data, "application/x-sh".data),
    ("zsh".data, "application/x-sh".data),
    ("md".data, "text/markdown".data),
    ("markdown".data, "text/markdown".data),
    ("yaml".data, "text/yaml".data), ("yml".data, "text/yaml".data),
    ("toml".data, "application/toml".data), ("ini".data, "text/plain".data),
    ("cfg".data, "text/plain".data), ("conf".data, "text/plain".data),
    ("sql".data, "application/sql".data),
    ("wasm".data, "application/wasm".data) ]

/-- Embedding of `mime_from_extension` from `src/mime.c`. -/
def mime_from_extension (ext : Str) : Str :=
  let e := match ext with
           | '.' :: rest => rest
           | s => s
  match mime_table.find? (fun entry => caseEq entry.1 e) with
  | some entry => entry.2
  | none => "application/octet-stream".data

/-- Embedding of `mime_from_path` from `src/mime.c`: splits at the last `'.'`;
no dot, or a dot only at position 0, yields the octet-stream default. -/
def mime_from_path (p : Str) : Str :=
  match splitLastC '.' p with
  | none => "application/octet-stream".data
  | some ([], _) => "application/octet-stream".data
  | some (_, ext) => mime_from_extension ext

/-! ## The VFS builder tree (`src/vfs.c`, `include/cirf/vfs.h`) -/

/-- A metadata list: ordered `(key, value)` pairs, duplicates allowed. -/
abbrev MetaList := List (Str × Str)

/-- Embedding of `vfs_file_t`: a file node of the builder tree.  The `parent` back
pointer of the C struct is implicit in the tree structure; `data`/`size`
loading is I/O and outside the scope of the modelled claims. -/
structure VFile where
  name : Str
  path : Str
  source_path : Str
  mime : Str
  metadata : MetaList
deriving DecidableEq, Repr

/-- Embedding of `vfs_folder_t`: a folder node owning its files and child folders.
The `parent` back pointer and the `next` sibling links of the C struct
are implicit in the nesting / list order. -/
inductive VFolder : Type where
  | mk (name : Str) (path : Str) (files : List VFile)
       (children : List VFolder) (metadata : MetaList) : VFolder
deriving Repr

def VFolder.name : VFolder → Str
  | .mk n _ _ _ _ => n

def VFolder.path : VFolder → Str
  | .mk _ p _ _ _ => p

def VFolder.files : VFolder → List VFile
  | .mk _ _ fs _ _ => fs

def VFolder.children : VFolder → List VFolder
  | .mk _ _ _ cs _ => cs

def VFolder.metadata : VFolder → MetaList
  | .mk _ _ _ _ m => m

mutual
/-- Structural decidable equality for `VFolder`. -/
def vfolderDecEq : (a b : VFolder) → Decidable (a = b)
  | .mk n p fs cs m, .mk n2 p2 fs2 cs2 m2 =>
    match decEq n n2, decEq p p2, decEq fs fs2, decEq m m2 with
    | isTrue h1, isTrue h2, isTrue h3, isTrue h5 =>
      match vfolderDecEqList cs cs2 with
      | isTrue h4 => isTrue (by rw [h1, h2, h3, h4, h5])
      | isFalse h4 => isFalse (by intro h; cases h; exact h4 rfl)
    | isFalse h1, _, _, _ => isFalse (by intro h; cases h; exact h1 rfl)
    | _, isFalse h2, _, _ => isFalse (by intro h; cases h; exact h2 rfl)
    | _, _, isFalse h3, _ => isFalse (by intro h; cases h; exact h3 rfl)
    | _, _, _, isFalse h5 => isFalse (by intro h; cases h; exact h5 rfl)

def vfolderDecEqList : (a b : List VFolder) → Decidable (a = b)
  | [], [] => isTrue rfl
  | [], _ :: _ => isFalse (by intro h; cases h)
  | _ :: _, [] => isFalse (by intro h; cases h)
  | x :: xs, y :: ys =>
    match vfolderDecEq x y with
    | isTrue h1 =>
      match vfolderDecEqList xs ys with
      | isTrue h2 => isTrue (by rw [h1, h2])
      | isFalse h2 => isFalse (by intro h; cases h; exact h2 rfl)
    | isFalse h1 => isFalse (by intro h; cases h; exact h1 rfl)
end

instance : DecidableEq VFolder := vfolderDecEq

/-- Embedding of `vfs_create_root`: a fresh folder with empty name and path. -/
def vfs_create_root : VFolder := .mk [] [] [] [] []

/-- Embedding of `folder_find_child`: first child folder with the given name. -/
def folder_find_child (f : VFolder) (n : Str) : Option VFolder :=
  f.children.find? (fun c => c.name = n)

/-- Embedding of `folder_find_file`: first file with the given name. -/
def folder_find_file (f : VFolder) (n : Str) : Option VFile :=
  f.files.find? (fun fl => fl.name = n)

/-- The fresh child folder `vfs_add_folder` allocates: name `n`, path
computed from the parent's path, no files/children/metadata. -/
def newChildFolder (parent : VFolder) (n : Str) : VFolder :=
  .mk n (joinPath parent.path n) [] [] []

/-- Replaces the first child with name `n` by `c`, or appends `c` when no
child carries that name (the append-at-tail of `vfs_add_folder`). -/
def setChild (f : VFolder) (n : Str) (c : VFolder) : VFolder :=
  match f with
  | .mk nm p fs cs m => .mk nm p fs (setChildList cs n c) m
where
  setChildList : List VFolder → Str → VFolder → List VFolder
  | [], _, c => [c]
  | x :: xs, n, c => if x.name = n then c :: xs else x :: setChildList xs n c

/-- Embedding of `vfs_add_folder parent name` restricted to the parent node: returns
the updated parent and the (existing or fresh) child.  The C function
returns the existing child unchanged when one with that name exists,
otherwise allocates a new child and appends it to the children list. -/
def vfs_add_folder (parent : VFolder) (n : Str) : VFolder × VFolder :=
  match folder_find_child parent n with
  | some existing => (parent, existing)
  | none =>
    let c := newChildFolder parent n
    (setChild parent n c, c)

/-- Embedding of `vfs_add_file parent name source`: fails (returns `none`) when a file
with that name already exists; otherwise creates the file with its path
computed from the parent's path and its MIME auto-detected from the name,
and appends it to the parent's file list. -/
def vfs_add_file (parent : VFolder) (n source : Str) : VFolder × Option VFile :=
  match folder_find_file parent n with
  | some _ => (parent, none)
  | none =>
    let fl : VFile :=
      { name := n, path := joinPath parent.path n,
        source_path := source, mime := mime_from_path n, metadata := [] }
    match parent with
    | .mk nm p fs cs m => (.mk nm p (fs ++ [fl]) cs m, some fl)

/-- Helper `findOrCreateChild f t`: the child pointer one step of
`vfs_ensure_folder` walks into — the existing child named `t`, or the
fresh one `vfs_add_folder` creates. -/
def findOrCreateChild (f : VFolder) (t : Str) : VFolder :=
  match folder_find_child f t with
  | some existing => existing
  | none => newChildFolder f t

/-- Walks the component list `ts`, creating missing folders on the way
exactly as `vfs_ensure_folder` does, and applies `g` to the node the walk
ends at (modelling a mutation through the returned folder pointer).
Returns the updated tree and `g`'s extra result. -/
def atEnsured {α : Type} : VFolder → List Str → (VFolder → VFolder × α) → VFolder × α
  | f, [], g => g f
  | f, t :: ts, g =>
    let r := atEnsured (findOrCreateChild f t) ts g
    (setChild f t r.1, r.2)
termination_by structural _ ts _ => ts

theorem atEnsured_nil {α : Type} (f : VFolder) (g : VFolder → VFolder × α) :
    atEnsured f [] g = g f := rfl

theorem atEnsured_cons {α : Type} (f : VFolder) (t : Str) (ts : List Str)
    (g : VFolder → VFolder × α) :
    atEnsured f (t :: ts) g =
      (setChild f t (atEnsured (findOrCreateChild f t) ts g).1,
       (atEnsured (findOrCreateChild f t) ts g).2) := rfl

/-- Embedding of `vfs_ensure_folder root path`: tokenises `path` on `'/'` (the
`strtok_r` loop) and walks/creates each component via the
`vfs_add_folder`-if-absent step; returns the updated tree together with
the folder the C function returns a pointer to. -/
def vfs_ensure_folder (root : VFolder) (p : Str) : VFolder × VFolder :=
  atEnsured root (tokens p) (fun f => (f, f))

/-- Embedding of `vfs_find_folder root path` (pure lookup, no creation): walks the
token list; `none` when a component is absent.  The empty path returns
the root itself. -/
def vfs_find_folder (root : VFolder) (p : Str) : Option VFolder :=
  go root (tokens p)
where
  go : VFolder → List Str → Option VFolder
  | f, [] => some f
  | f, t :: ts =>
    match folder_find_child f t with
    | some c => go c ts
    | none => none

/-- Embedding of `vfs_add_metadata`: appends one `(key, value)` pair at the tail. -/
def vfs_add_metadata (list : MetaList) (k v : Str) : MetaList := list ++ [(k, v)]

example : vfs_ensure_folder vfs_create_root "a/b".data
    = (.mk [] [] []
        [.mk "a".data "a".data [] [.mk "b".data "a/b".data [] [] []] []] [],
       .mk "b".data "a/b".data [] [] []) := by decide

example : tokens "//a//b/".data = ["a".data, "b".data] := by decide

example : path_dirname "a/b/c.txt".data = "a/b".data := by decide

example : path_join "a/".data "./b".data = "a/b".data := by decide

example : mime_from_path "hello.txt".data = "text/plain".data := by decide

/-! ## Basic lemmas on the builder operations -/

theorem setChild_name (f : VFolder) (n : Str) (c : VFolder) :
    (setChild f n c).name = f.name := by
  cases f; rfl

theorem setChild_path (f : VFolder) (n : Str) (c : VFolder) :
    (setChild f n c).path = f.path := by
  cases f; rfl

theorem setChild_files (f : VFolder) (n : Str) (c : VFolder) :
    (setChild f n c).files = f.files := by
  cases f; rfl

theorem setChild_children (f : VFolder) (n : Str) (c : VFolder) :
    (setChild f n c).children = setChild.setChildList f.children n c := by
  cases f; rfl

theorem folder_find_child_name {f : VFolder} {n : Str} {c : VFolder}
    (h : folder_find_child f n = some c) : c.name = n := by
  have := List.find?_some h
  simpa using this

/-- The node `findOrCreateChild` hands back always carries name `t`. -/
theorem findOrCreateChild_name (f : VFolder) (t : Str) :
    (findOrCreateChild f t).name = t := by
  unfold findOrCreateChild
  cases h : folder_find_child f t with
  | none => simp [newChildFolder, VFolder.name]
  | some c => exact folder_find_child_name h

theorem setChildList_find_self (cs : List VFolder) (n : Str) (c : VFolder)
    (hc : c.name = n) :
    (setChild.setChildList cs n c).find? (fun x => x.name = n) = some c := by
  induction cs with
  | nil => simp [setChild.setChildList, List.find?, hc]
  | cons x xs ih =>
    by_cases hx : x.name = n
    · simp [setChild.setChildList, hx, List.find?, hc]
    · simp [setChild.setChildList, hx, List.find?, ih]

/-- After `setChild f n c` the child found under name `n` is exactly `c`
(provided `c` indeed carries name `n`). -/
theorem folder_find_child_setChild (f : VFolder) (n : Str) (c : VFolder)
    (hc : c.name = n) :
    folder_find_child (setChild f n c) n = some c := by
  unfold folder_find_child
  rw [setChild_children]
  exact setChildList_find_self f.children n c hc

theorem findOrCreateChild_eq_of_find {f : VFolder} {t : Str} {c : VFolder}
    (h : folder_find_child f t = some c) : findOrCreateChild f t = c := by
  unfold findOrCreateChild
  rw [h]

/-- Replacing the same (correctly named) child twice is the same as
replacing it once. -/
theorem setChild_setChild (f : VFolder) (n : Str) (c : VFolder)
    (hc : c.name = n) :
    setChild (setChild f n c) n c = setChild f n c := by
  cases f with
  | mk nm p fs cs m =>
    simp only [setChild]
    congr 1
    induction cs with
    | nil => simp [setChild.setChildList, hc]
    | cons x xs ih =>
      by_cases hx : x.name = n
      · simp [setChild.setChildList, hx, hc]
      · simp [setChild.setChildList, hx, ih]

/-- When `g` preserves the name of the node it rewrites, `atEnsured`
preserves the name of the tree's root node. -/
theorem atEnsured_name {α : Type} (ts : List Str) (f : VFolder)
    (g : VFolder → VFolder × α) (hg : ∀ x, ((g x).1).name = x.name) :
    ((atEnsured f ts g).1).name = f.name := by
  cases ts with
  | nil => simpa [atEnsured_nil] using hg f
  | cons t ts => simp [atEnsured_cons, setChild_name]

/-! ## C3: idempotence of `vfs_ensure_folder` -/

theorem atEnsured_id_idem (ts : List Str) (f : VFolder) :
    atEnsured (atEnsured f ts (fun x => (x, x))).1 ts (fun x => (x, x))
      = atEnsured f ts (fun x => (x, x)) := by
  induction ts generalizing f with
  | nil => simp [atEnsured_nil]
  | cons t ts ih =>
    rw [atEnsured_cons]
    have hname : ((atEnsured (findOrCreateChild f t) ts
        (fun x => (x, x))).1).name = t := by
      rw [atEnsured_name ts (findOrCreateChild f t) _ (fun _ => rfl)]
      exact findOrCreateChild_name f t
    have hfind : findOrCreateChild
        (setChild f t (atEnsured (findOrCreateChild f t) ts (fun x => (x, x))).1) t
        = (atEnsured (findOrCreateChild f t) ts (fun x => (x, x))).1 :=
      findOrCreateChild_eq_of_find (folder_find_child_setChild _ _ _ hname)
    conv_lhs => rw [atEnsured_cons]
    rw [hfind, ih (findOrCreateChild f t)]
    conv_rhs => rw [atEnsured_cons]
    rw [setChild_setChild _ _ _ hname]

/-- C3: `vfs_ensure_folder` is idempotent.  Calling it a second time with
the same path on the (possibly extended) tree returned by the first call
changes nothing: the second call returns the very same updated tree
(it creates no new folder) and the very same folder node — the
model's rendering of "the same folder object" — as the first call. -/
theorem vfs_ensure_folder_idempotent (root : VFolder) (p : Str) :
    vfs_ensure_folder (vfs_ensure_folder root p).1 p = vfs_ensure_folder root p :=
  atEnsured_id_idem (tokens p) root

/-! ## The generated read-only tree and the runtime library
(`src/runtime.c`, `include/cirf/types.h`) -/

/-- Embedding of `cirf_file_t`: a record of the generated tree.  Only `name` is read
by the modelled lookup functions; `path` is carried because the claims
speak about a file's full virtual path.  The `mime`/`data`/`size`/
`parent`/`metadata` fields are never consulted by path lookup. -/
structure CFile where
  name : Str
  path : Str
deriving DecidableEq, Repr

/-- Embedding of `cirf_folder_t`: name, contiguous child array, contiguous file array
(`child_count` / `file_count` are the list lengths; `path`, `parent` and
`metadata` are not consulted by the modelled lookups). -/
inductive CFolder : Type where
  | mk (name : Str) (children : List CFolder) (files : List CFile) : CFolder
deriving Repr

def CFolder.name : CFolder → Str
  | .mk n _ _ => n

def CFolder.children : CFolder → List CFolder
  | .mk _ cs _ => cs

def CFolder.files : CFolder → List CFile
  | .mk _ _ fs => fs

mutual
def cfolderDecEq : (a b : CFolder) → Decidable (a = b)
  | .mk n cs fs, .mk n2 cs2 fs2 =>
    match decEq n n2, decEq fs fs2 with
    | isTrue h1, isTrue h3 =>
      match cfolderDecEqList cs cs2 with
      | isTrue h2 => isTrue (by rw [h1, h2, h3])
      | isFalse h2 => isFalse (by intro h; cases h; exact h2 rfl)
    | isFalse h1, _ => isFalse (by intro h; cases h; exact h1 rfl)
    | _, isFalse h3 => isFalse (by intro h; cases h; exact h3 rfl)

def cfolderDecEqList : (a b : List CFolder) → Decidable (a = b)
  | [], [] => isTrue rfl
  | [], _ :: _ => isFalse (by intro h; cases h)
  | _ :: _, [] => isFalse (by intro h; cases h)
  | x :: xs, y :: ys =>
    match cfolderDecEq x y with
    | isTrue h1 =>
      match cfolderDecEqList xs ys with
      | isTrue h2 => isTrue (by rw [h1, h2])
      | isFalse h2 => isFalse (by intro h; cases h; exact h2 rfl)
    | isFalse h1 => isFalse (by intro h; cases h; exact h1 rfl)
end

instance : DecidableEq CFolder := cfolderDecEq

/-- The by-name file scan of `cirf_find_file`
(`for i < file_count: strcmp(files[i].name, x) == 0`). -/
def cfolder_find_file (f : CFolder) (n : Str) : Option CFile :=
  f.files.find? (fun fl => fl.name = n)

/-- Value of `CIRF_MAX_PATH` in the default configuration. -/
def CIRF_MAX_PATH : Nat := 256

/-- Embedding of `cirf_find_folder` from `src/runtime.c`: empty path returns the root;
otherwise the component loop (skip slashes, take a component, match a
child by exact name) — i.e. a walk over `tokens path`. -/
def cirf_find_folder (root : CFolder) (p : Str) : Option CFolder :=
  if p = [] then some root
  else go root (tokens p)
where
  go : CFolder → List Str → Option CFolder
  | f, [] => some f
  | f, t :: ts =>
    match f.children.find? (fun c => c.name = t) with
    | some c => go c ts
    | none => none

/-- Embedding of `cirf_find_file` from `src/runtime.c`: no `'/'` → scan the root's own
files; otherwise (1) return not-found when the whole path names a folder,
(2) return not-found when the folder part is `CIRF_MAX_PATH` bytes or
longer (the stack-buffer guard), (3) resolve the folder part and scan its
files for the name part. -/
def cirf_find_file (root : CFolder) (p : Str) : Option CFile :=
  match splitLastC '/' p with
  | none => cfolder_find_file root p
  | some (folderPart, namePart) =>
    match cirf_find_folder root p with
    | some _ => none
    | none =>
      if CIRF_MAX_PATH ≤ folderPart.length then none
      else
        match cirf_find_folder root folderPart with
        | none => none
        | some fl => cfolder_find_file fl namePart

/-- Embedding of `cirf_mount_t`: one mount-table entry (`prefix`, `root`). -/
structure CMount where
  pfx : Str
  root : CFolder
deriving DecidableEq, Repr

/-- Embedding of `cirf_mount`: prepends the new entry to the table
(`mount->next = cirf_mounts; cirf_mounts = mount`). -/
def cirf_mount (pfx : Str) (root : CFolder) (table : List CMount) : List CMount :=
  ⟨pfx, root⟩ :: table

/-- Embedding of `cirf_resolve_file`: scans the table in order; at the first entry
whose prefix is a string prefix of the path (`strncmp`), strips the
prefix and delegates to `cirf_find_file` on that mount's root. -/
def cirf_resolve_file : List CMount → Str → Option CFile
  | [], _ => none
  | m :: ms, p =>
    if m.pfx.isPrefixOf p then cirf_find_file m.root (p.drop m.pfx.length)
    else cirf_resolve_file ms p

mutual
/-- All file records of a generated tree (pre-order). -/
def cAllFiles : CFolder → List CFile
  | .mk _ cs fs => fs ++ cAllFilesList cs
def cAllFilesList : List CFolder → List CFile
  | [] => []
  | c :: cs => cAllFiles c ++ cAllFilesList cs
end

/-! ## C7: mount table resolution -/

theorem cirf_resolve_file_eq_find (table : List CMount) (p : Str) :
    cirf_resolve_file table p =
      match table.find? (fun m => m.pfx.isPrefixOf p) with
      | some m => cirf_find_file m.root (p.drop m.pfx.length)
      | none => none := by
  induction table with
  | nil => rfl
  | cons m ms ih =>
    by_cases h : m.pfx.isPrefixOf p
    · simp [cirf_resolve_file, List.find?, h]
    · simp only [cirf_resolve_file, if_neg h, ih]
      simp [List.find?, h]

/-- C7: `cirf_mount` prepends to the table, and `cirf_resolve_file` obeys
first-match semantics: the first entry (scanning most-recently-mounted
first) whose prefix is a string prefix of the path wins, exactly that
prefix is stripped before delegating to `cirf_find_file` on that mount's
root, later entries are never consulted, and an empty match yields
not-found. -/
theorem cirf_mount_resolve_first_match (table : List CMount) (p pfx : Str)
    (r : CFolder) :
    cirf_mount pfx r table = ⟨pfx, r⟩ :: table ∧
    cirf_resolve_file table p =
      (match table.find? (fun m => m.pfx.isPrefixOf p) with
       | some m => cirf_find_file m.root (p.drop m.pfx.length)
       | none => none) :=
  ⟨rfl, cirf_resolve_file_eq_find table p⟩

/-! ## C9: folder records shadowing equally named files -/

/-- A generated tree in which a folder and a file share the virtual path
`"a"`: the root owns a child folder named `a` and a file record named
`a` (sibling-name uniqueness in the builder is only per kind, so this
tree is reachable). -/
def shadowTreeTop : CFolder :=
  .mk [] [.mk ['a'] [] []] [⟨['a'], ['a']⟩]

/-- C9 as stated is false: on a tree where folder and file share the
slash-free path `"a"`, `cirf_find_file` takes the no-slash branch, scans
the root's files only, and returns the file — the folder does NOT shadow
it.  The claimed not-found behaviour only exists for paths containing a
slash. -/
theorem cirf_find_file_shadow_counterexample :
    ¬ (∀ (root : CFolder) (p : Str),
        (∃ fl ∈ cAllFiles root, fl.path = p) →
        (cirf_find_folder root p).isSome = true →
        cirf_find_file root p = none) := by
  intro h
  have h2 := h shadowTreeTop ['a'] ⟨⟨['a'], ['a']⟩, by decide, rfl⟩ (by decide)
  exact absurd h2 (by decide)

/-- C9 amended: for every path that CONTAINS a `'/'` and resolves to an
existing folder, `cirf_find_file` returns not-found — the whole-path
folder check runs before the file search and shadows any file sharing
that path. -/
theorem cirf_find_file_shadowed_by_folder (root : CFolder) (p : Str)
    (hslash : splitLastC '/' p ≠ none)
    (hfolder : (cirf_find_folder root p).isSome = true) :
    cirf_find_file root p = none := by
  unfold cirf_find_file
  cases hsp : splitLastC '/' p with
  | none => exact absurd hsp hslash
  | some pr =>
    cases hff : cirf_find_folder root p with
    | none => rw [hff] at hfolder; simp at hfolder
    | some fl => simp

/-- A tree holding folder `a/b` and a file record with path `a/b`. -/
def shadowTreeDeep : CFolder :=
  .mk [] [.mk ['a'] [.mk ['b'] [] []] [⟨['b'], "a/b".data⟩]] []

theorem cirf_find_file_shadowed_by_folder_witness :
    cirf_find_file shadowTreeDeep "a/b".data = none :=
  cirf_find_file_shadowed_by_folder shadowTreeDeep "a/b".data
    (by decide) (by decide)

/-! ## C5: the `cirf_find_file` lookup algorithm -/

/-- C5 as stated is false: it describes the slash case as "resolve the
folder part, then search that folder's files for the name part", but the
code first checks whether the WHOLE path names a folder and returns
not-found in that case even when the described search would find a file.
On `shadowTreeDeep`, folder `a` holds both a subfolder `b` and a file
`b`: the described algorithm yields the file, the code yields none. -/
theorem cirf_find_file_algorithm_counterexample :
    ¬ (∀ (root : CFolder) (p fp np : Str), splitLastC '/' p = some (fp, np) →
        cirf_find_file root p =
          (match cirf_find_folder root fp with
           | some fl => cfolder_find_file fl np
           | none => none)) := by
  intro h
  have h2 := h shadowTreeDeep "a/b".data ['a'] ['b'] (by decide)
  exact absurd h2 (by decide)

/-- C5 amended: without a `'/'` the lookup scans only the root folder's
own files by name; with a `'/'`, the code first returns not-found when
the whole path resolves to a folder, next returns not-found when the
folder part (before the last slash) is `CIRF_MAX_PATH` bytes or longer,
and only then splits at the last `'/'`, resolves the folder part via
`cirf_find_folder` and scans that folder's files for the name part.
A folder is never returned (the return type holds only file records). -/
theorem cirf_find_file_characterization (root : CFolder) (p : Str) :
    (splitLastC '/' p = none →
      cirf_find_file root p = cfolder_find_file root p) ∧
    (∀ fp np, splitLastC '/' p = some (fp, np) →
      cirf_find_file root p =
        (match cirf_find_folder root p with
         | some _ => none
         | none =>
           if CIRF_MAX_PATH ≤ fp.length then none
           else
             match cirf_find_folder root fp with
             | none => none
             | some fl => cfolder_find_file fl np)) := by
  constructor
  · intro hsp
    unfold cirf_find_file
    rw [hsp]
  · intro fp np hsp
    unfold cirf_find_file
    rw [hsp]

/-- The spec's own example tree: folder `a` → folder `b` → file `c.txt`. -/
def exampleTreeAbc : CFolder :=
  .mk [] [.mk ['a'] [.mk ['b'] [] [⟨"c.txt".data, "a/b/c.txt".data⟩]] []] []

theorem cirf_find_file_characterization_witness :
    cirf_find_file exampleTreeAbc "a/b/c.txt".data
      = some ⟨"c.txt".data, "a/b/c.txt".data⟩ := by
  have h := (cirf_find_file_characterization exampleTreeAbc "a/b/c.txt".data).2
    "a/b".data "c.txt".data (by decide)
  rw [h]
  decide

/-! ## C8: the `CIRF_MAX_PATH` guard in `cirf_find_file` -/

/-- A folder name of exactly `CIRF_MAX_PATH` (256) bytes. -/
def longName : Str := List.replicate 256 'a'

/-- The virtual path `longName/f`, whose folder portion is 256 bytes. -/
def longPath : Str := longName ++ '/' :: ['f']

/-- A tree that really contains a file at `longPath`. -/
def longTree : CFolder :=
  .mk [] [.mk longName [] [⟨['f'], longPath⟩]] []

/-- C8: when the folder portion of a slash-containing path is
`CIRF_MAX_PATH` bytes or longer, `cirf_find_file` returns not-found for
every tree — even `longTree`, which contains a file with exactly that
path; `cirf_find_folder` has no such limit and still resolves the
256-byte folder name. -/
theorem cirf_find_file_max_path (root : CFolder) (p fp np : Str)
    (hsp : splitLastC '/' p = some (fp, np))
    (hlen : CIRF_MAX_PATH ≤ fp.length) :
    cirf_find_file root p = none ∧
    cirf_find_folder longTree longName = some (.mk longName [] [⟨['f'], longPath⟩]) ∧
    (∃ fl ∈ cAllFiles longTree, fl.path = longPath) := by
  refine ⟨?_, by decide, ⟨⟨['f'], longPath⟩, by decide, rfl⟩⟩
  unfold cirf_find_file
  rw [hsp]
  cases cirf_find_folder root p with
  | none => simp [hlen]
  | some fl => simp

theorem cirf_find_file_max_path_witness :
    cirf_find_file longTree longPath = none :=
  (cirf_find_file_max_path longTree longPath longName ['f']
    (by decide) (by decide)).1

/-! ## The code generator's indexing and emission passes
(`src/codegen.c`) -/

/-- Embedding of `folder_info_t`: the per-folder record `collect_folder_info` fills
in.  The C struct identifies the folder by its pointer; here the
folder's full virtual path stands in for the pointer (paths are distinct
for distinct nodes of any tree built by the interpreter). -/
structure FolderInfo where
  fpath : Str
  self_index : Nat
  files_start : Nat
  files_count : Nat
  children_start : Nat
  children_count : Nat
deriving DecidableEq, Repr

mutual
/-- Embedding of `collect_folder_info`: pre-order traversal; the folder takes the
current folder index (`self_index = (*folder_idx)++`), records
`files_start = *file_idx` / `files_count`, advances the file counter,
records `children_start = *folder_idx` (i.e. `self_index + 1`) /
`children_count`, appends its record, then recurses into its children
with the running counters. -/
def collect_folder_info : VFolder → Nat → Nat → List FolderInfo × Nat × Nat
  | .mk _ p fs cs _, fileIdx, folderIdx =>
    let info : FolderInfo :=
      ⟨p, folderIdx, fileIdx, fs.length, folderIdx + 1, cs.length⟩
    let r := collect_folder_info_list cs (fileIdx + fs.length) (folderIdx + 1)
    (info :: r.1, r.2)

def collect_folder_info_list : List VFolder → Nat → Nat → List FolderInfo × Nat × Nat
  | [], fi, fo => ([], fi, fo)
  | c :: cs, fi, fo =>
    let r1 := collect_folder_info c fi fo
    let r2 := collect_folder_info_list cs r1.2.1 r1.2.2
    (r1.1 ++ r2.1, r2.2)
end

/-- Embedding of `find_folder_info`: first record for the given folder (the C code
compares the stored folder pointer; the path stands in for it). -/
def find_folder_info (infos : List FolderInfo) (p : Str) : Option FolderInfo :=
  infos.find? (fun i => i.fpath = p)

mutual
/-- The order in which `generate_all_folders` emits folder records:
children (recursively) first, then the folder itself — post-order.
Records are identified by their folder's path. -/
def emissionPaths : VFolder → List Str
  | .mk _ p _ cs _ => emissionPathsList cs ++ [p]
def emissionPathsList : List VFolder → List Str
  | [] => []
  | c :: cs => emissionPaths c ++ emissionPathsList cs
end

mutual
/-- All folder nodes of a builder tree, pre-order. -/
def allFolders : VFolder → List VFolder
  | .mk n p fs cs m => .mk n p fs cs m :: allFoldersList cs
def allFoldersList : List VFolder → List VFolder
  | [] => []
  | c :: cs => allFolders c ++ allFoldersList cs
end

/-- Check that a list of optional indices is the (`some`-lifted)
consecutive run starting at its first entry. -/
def consecutiveIndices (l : List (Option Nat)) : Bool :=
  match l with
  | [] => true
  | some i :: _ => l = (List.range' i l.length).map some
  | none :: _ => false

/-- The indexing half of the contiguity claim: in the records produced
by `collect_folder_info`, every folder's direct children received a
single consecutive run of folder indices. -/
def indexingContiguous (t : VFolder) : Bool :=
  let infos := (collect_folder_info t 0 0).1
  (allFolders t).all fun f =>
    consecutiveIndices
      (f.children.map fun c => (find_folder_info infos c.path).map (·.self_index))

/-- Tests whether `xs` occurs as one uninterrupted block inside `ys`. -/
def isBlockIn (xs ys : List Str) : Bool :=
  (List.range (ys.length + 1)).any fun i => (ys.drop i).take xs.length = xs

/-- The emission half of the contiguity claim: in the order
`generate_all_folders` writes folder records, every folder's direct
child records form a single uninterrupted block. -/
def emissionContiguous (t : VFolder) : Bool :=
  (allFolders t).all fun f =>
    isBlockIn (f.children.map VFolder.path) (emissionPaths t)

/-- The depth-2 tree: root with children `a` (containing `x`) and `b`
(containing `y`) — reachable by two `ensure_folder` calls. -/
def contigCounterTree : VFolder :=
  .mk [] [] []
    [ .mk "a".data "a".data [] [.mk "x".data "a/x".data [] [] []] [],
      .mk "b".data "b".data [] [.mk "y".data "b/y".data [] [] []] [] ] []

/-- C1 fails on the code: on the reachable tree `root{a{x}, b{y}}` the
pre-order indexing pass gives the direct children of the root the
indices 1 and 3 (the claimed contiguous range starting at
`children_start = 1` of width `children_count = 2` would be `{1, 2}`),
and the post-order emission order `x, a, y, b, root` separates the
records of `a` and `b` by `y` — so neither half of the contiguity
invariant holds, while the runtime and the generated
base-pointer-plus-count layout depend on it. -/
theorem contiguity_invariant_violated :
    contigCounterTree =
      (vfs_ensure_folder
        (vfs_ensure_folder vfs_create_root "a/x".data).1 "b/y".data).1 ∧
    indexingContiguous contigCounterTree = false ∧
    emissionContiguous contigCounterTree = false := by
  refine ⟨by decide, by decide, by decide⟩

/- Sanity: both halves of the invariant do hold on depth-one trees. -/
example :
    indexingContiguous
      (.mk [] [] [] [.mk "a".data "a".data [] [] [],
                     .mk "b".data "b".data [] [] []] []) = true := by decide

example :
    emissionContiguous
      (.mk [] [] [] [.mk "a".data "a".data [] [] [],
                     .mk "b".data "b".data [] [] []] []) = true := by decide

/-! ## The manifest interpreter (`src/config.c`)

The JSON value tree is external input; `load_metadata` only ever asks
whether a value under the `metadata` object is a string, so a manifest
value is modelled as string-or-other, and an entry's (possibly absent)
`metadata` object as its list of key/value pairs in insertion order
(absent or non-object collapses to the empty list, which behaves
identically).  The required-field / unknown-type validation of
`process_entry` happens before any tree mutation and is JSON-shape glue,
so the entry AST carries only well-formed entries.  A glob entry carries
the list of real paths the external glob collaborator reports for its
pattern, in callback order. -/

/-- Embedding of `cirf_error_t` (without `CIRF_OK`, which `Except.ok` renders). -/
inductive CErr where
  | nomem
  | io
  | parse
  | invalid
  | notFound
  | duplicate
deriving DecidableEq, Repr

/-- A manifest metadata value: a JSON string, or anything else. -/
inductive JVal where
  | jstr (s : Str)
  | jother
deriving DecidableEq, Repr

/-- A manifest metadata object: ordered key/value pairs. -/
abbrev JObj := List (Str × JVal)

/-- Embedding of `load_metadata`: appends, in object order, every string-valued pair
of the metadata object to the destination list. -/
def load_metadata (obj : JObj) (dst : MetaList) : MetaList :=
  obj.foldl
    (fun acc kv =>
      match kv.2 with
      | .jstr v => vfs_add_metadata acc kv.1 v
      | .jother => acc)
    dst

/-- The string-valued pairs of a metadata object, in order. -/
def stringPairs (obj : JObj) : MetaList :=
  obj.filterMap fun kv =>
    match kv.2 with
    | .jstr v => some (kv.1, v)
    | .jother => none

/-- Applies `g` to the first file named `n` (the stand-in for mutating
through the file pointer `vfs_add_file` / `glob_callback` just obtained:
the duplicate check guarantees that file is the unique one named `n`). -/
def update_file_list (n : Str) (g : VFile → VFile) : List VFile → List VFile
  | [] => []
  | fl :: fs => if fl.name = n then g fl :: fs else fl :: update_file_list n g fs

def update_file (n : Str) (g : VFile → VFile) : VFolder → VFolder
  | .mk nm p fs cs m => .mk nm p (update_file_list n g fs) cs m

/-- The insert-then-patch step both `process_file_entry` and
`glob_callback` perform at the ensured folder: `vfs_add_file`, and when
that succeeds (no duplicate), in-place patching of the fresh file
(MIME override / metadata attachment).  The Bool reports success. -/
def insert_file_patched (n source : Str) (patch : VFile → VFile)
    (f : VFolder) : VFolder × Bool :=
  let ar := vfs_add_file f n source
  match ar.2 with
  | none => (ar.1, false)
  | some _ => (update_file n patch ar.1, true)

/-- The patch `process_file_entry` applies to the fresh file: optional
MIME override, then metadata attachment. -/
def filePatch (mimeOv : Option Str) (meta : JObj) (fl : VFile) : VFile :=
  let fl2 := match mimeOv with
             | some m => { fl with mime := m }
             | none => fl
  { fl2 with metadata := load_metadata meta fl2.metadata }

/-- Embedding of `process_file_entry` from `src/config.c`: resolves the real source
against the manifest's base directory, splits the entry path into
directory + filename, composes the final folder path from the current
parent folder's path (three cases), ensures that folder, inserts the
file there, and on success patches MIME/metadata; a duplicate insertion
is the error `CIRF_ERR_DUPLICATE`. -/
def process_file_entry (baseDir : Str) (root : VFolder) (parentPath : Str)
    (path source : Str) (mimeOv : Option Str) (meta : JObj) :
    Except CErr VFolder :=
  let full_source := path_join baseDir source
  let folder_path := path_dirname path
  let filename := path_basename path
  let full_folder_path :=
    if folder_path = [] then parentPath
    else if parentPath = [] then folder_path
    else path_join parentPath folder_path
  let r := atEnsured root (tokens full_folder_path)
    (insert_file_patched filename full_source (filePatch mimeOv meta))
  if r.2 then .ok r.1 else .error .duplicate

/-- Embedding of `glob_callback` from `src/config.c`: derives the virtual path as
`target/basename(match)`, ensures the enclosing folder, inserts the file
with the matched real path as source, and attaches the glob entry's
metadata to it — but only when the insertion succeeded; a duplicate is
tolerated (return 0, continue) and the existing file is left untouched. -/
def glob_callback (target : Str) (meta : JObj) (root : VFolder)
    (matched : Str) : VFolder :=
  let bn := path_basename matched
  let target_path := path_join target bn
  let folder_path := path_dirname target_path
  let filename := path_basename target_path
  (atEnsured root (tokens folder_path)
    (insert_file_patched filename matched
      (fun fl => { fl with metadata := load_metadata meta fl.metadata }))).1

/-- Embedding of `process_glob_entry`: composes the full target path from the parent
folder's path, then lets the glob collaborator drive `glob_callback`
over every matched path in order. -/
def process_glob_entry (root : VFolder) (parentPath target : Str)
    (meta : JObj) (ms : List Str) : VFolder :=
  let full_target := if parentPath = [] then target else path_join parentPath target
  ms.foldl (glob_callback full_target meta) root

/-- A well-formed manifest entry (see the section comment). -/
inductive Entry where
  | fileE (path source : Str) (mimeOv : Option Str) (meta : JObj)
  | folderE (path : Str) (meta : JObj) (entries : List Entry)
  | globE (ms : List Str) (target : Str) (meta : JObj)

/-- Embedding of `load_metadata(entry, &folder->metadata)` on a folder node. -/
def attach_folder_metadata (meta : JObj) : VFolder → VFolder
  | .mk n p fs cs m => .mk n p fs cs (load_metadata meta m)

mutual
/-- Embedding of `process_entry`: dispatch on the entry type.  A folder entry ensures
its composed path, attaches metadata there, and recurses into its nested
entries with the ensured folder as the new parent; a glob entry never
fails (the callback swallows duplicates). -/
def process_entry (baseDir : Str) (root : VFolder) (parentPath : Str) :
    Entry → Except CErr VFolder
  | .fileE path source mimeOv meta =>
    process_file_entry baseDir root parentPath path source mimeOv meta
  | .folderE path meta entries =>
    let full_path := if parentPath = [] then path else path_join parentPath path
    let r := atEnsured root (tokens full_path)
      (fun f => (attach_folder_metadata meta f, f.path))
    process_entries baseDir r.1 r.2 entries
  | .globE ms target meta =>
    .ok (process_glob_entry root parentPath target meta ms)

/-- The `entries` loop of `config_load` / `process_folder_entry`: the
first error aborts, later entries are never processed. -/
def process_entries (baseDir : Str) (root : VFolder) (parentPath : Str) :
    List Entry → Except CErr VFolder
  | [] => .ok root
  | e :: es =>
    match process_entry baseDir root parentPath e with
    | .error err => .error err
    | .ok root2 => process_entries baseDir root2 parentPath es
end

/-- The folder node `vfs_ensure_folder` returns (the node the walk ends
at, after creating what was missing). -/
def ensNode (f : VFolder) (ts : List Str) : VFolder :=
  (atEnsured f ts (fun x => (x, x))).2

theorem ensNode_nil (f : VFolder) : ensNode f [] = f := rfl

theorem ensNode_cons (f : VFolder) (t : Str) (ts : List Str) :
    ensNode f (t :: ts) = ensNode (findOrCreateChild f t) ts := rfl

/-- The extra result of `atEnsured` is `g` evaluated at the ensured
node: the walk to the node does not depend on `g`. -/
theorem atEnsured_snd {α : Type} (ts : List Str) (f : VFolder)
    (g : VFolder → VFolder × α) :
    (atEnsured f ts g).2 = (g (ensNode f ts)).2 := by
  induction ts generalizing f with
  | nil => rfl
  | cons t ts ih =>
    rw [atEnsured_cons, ensNode_cons]
    exact ih (findOrCreateChild f t)

/-- Two node rewrites that agree at the ensured node produce the same
tree. -/
theorem atEnsured_fst_eq {α β : Type} (ts : List Str) (f : VFolder)
    (g1 : VFolder → VFolder × α) (g2 : VFolder → VFolder × β)
    (h : (g1 (ensNode f ts)).1 = (g2 (ensNode f ts)).1) :
    (atEnsured f ts g1).1 = (atEnsured f ts g2).1 := by
  induction ts generalizing f with
  | nil => exact h
  | cons t ts ih =>
    rw [atEnsured_cons, atEnsured_cons]
    exact congrArg (setChild f t) (ih (findOrCreateChild f t) h)

/-- Walking the same component list again in the updated tree lands on
the rewritten node (`g` must preserve the node's name, as every modelled
mutation does). -/
theorem ensNode_atEnsured {α : Type} (ts : List Str) (f : VFolder)
    (g : VFolder → VFolder × α) (hg : ∀ x, ((g x).1).name = x.name) :
    ensNode (atEnsured f ts g).1 ts = (g (ensNode f ts)).1 := by
  induction ts generalizing f with
  | nil => rfl
  | cons t ts ih =>
    rw [atEnsured_cons, ensNode_cons, ensNode_cons]
    have hname : ((atEnsured (findOrCreateChild f t) ts g).1).name = t := by
      rw [atEnsured_name ts _ g hg]
      exact findOrCreateChild_name f t
    rw [findOrCreateChild_eq_of_find (folder_find_child_setChild _ _ _ hname)]
    exact ih (findOrCreateChild f t)

theorem vfs_add_file_fst_name (f : VFolder) (n s : Str) :
    ((vfs_add_file f n s).1).name = f.name := by
  cases f with
  | mk nm p fs cs m =>
    unfold vfs_add_file
    cases folder_find_file (.mk nm p fs cs m) n <;> rfl

theorem update_file_name (n : Str) (g : VFile → VFile) (f : VFolder) :
    (update_file n g f).name = f.name := by
  cases f; rfl

theorem insert_file_patched_fst_name (n s : Str) (patch : VFile → VFile)
    (f : VFolder) : ((insert_file_patched n s patch f).1).name = f.name := by
  unfold insert_file_patched
  cases h : (vfs_add_file f n s).2 with
  | none => simp [h, vfs_add_file_fst_name]
  | some fl => simp [h, update_file_name, vfs_add_file_fst_name]

/-- A present file makes the insert-then-patch step a silent no-op
reporting failure. -/
theorem insert_file_patched_duplicate (n s : Str) (patch : VFile → VFile)
    (f : VFolder) (h : (folder_find_file f n).isSome = true) :
    insert_file_patched n s patch f = (f, false) := by
  unfold insert_file_patched vfs_add_file
  cases hf : folder_find_file f n with
  | none => rw [hf] at h; simp at h
  | some fl => simp

/-- Evaluating `vfs_add_file` on a folder without a file named `n`: the
fresh file record and its append. -/
theorem vfs_add_file_fresh (nm p : Str) (fs : List VFile) (cs : List VFolder)
    (m : MetaList) (n s : Str)
    (h : folder_find_file (.mk nm p fs cs m) n = none) :
    vfs_add_file (.mk nm p fs cs m) n s
      = (.mk nm p (fs ++ [⟨n, joinPath p n, s, mime_from_path n, []⟩]) cs m,
         some ⟨n, joinPath p n, s, mime_from_path n, []⟩) := by
  unfold vfs_add_file
  rw [h]
  rfl

theorem update_file_list_append (n : Str) (g : VFile → VFile)
    (fs : List VFile) (fl : VFile)
    (h : fs.find? (fun x => x.name = n) = none) (hfl : fl.name = n) :
    update_file_list n g (fs ++ [fl]) = fs ++ [g fl] := by
  induction fs with
  | nil => simp [update_file_list, hfl]
  | cons x xs ih =>
    rw [List.find?_cons] at h
    cases hx : (decide (x.name = n)) with
    | true => rw [hx] at h; simp at h
    | false =>
      rw [hx] at h
      simp only [List.cons_append, update_file_list, List.append_eq]
      rw [if_neg (by simpa using hx), ih h]

theorem find?_append_last (n : Str) (fs : List VFile) (fl : VFile)
    (h : fs.find? (fun x => x.name = n) = none) (hfl : fl.name = n) :
    (fs ++ [fl]).find? (fun x => x.name = n) = some fl := by
  induction fs with
  | nil => simp [List.find?, hfl]
  | cons x xs ih =>
    rw [List.find?_cons] at h
    cases hx : (decide (x.name = n)) with
    | true => rw [hx] at h; simp at h
    | false =>
      rw [hx] at h
      simp only [List.cons_append, List.find?_cons, hx]
      exact ih h

/-- Unfolding: `load_metadata` appends exactly the string-valued pairs,
in object order. -/
theorem load_metadata_eq (obj : JObj) (dst : MetaList) :
    load_metadata obj dst = dst ++ stringPairs obj := by
  induction obj generalizing dst with
  | nil => simp [load_metadata, stringPairs]
  | cons kv rest ih =>
    cases kv with
    | mk k v =>
      cases v with
      | jstr s =>
        simp [load_metadata, stringPairs, List.foldl_cons, vfs_add_metadata] at ih ⊢
        rw [ih]
        simp
      | jother =>
        simp [load_metadata, stringPairs, List.foldl_cons] at ih ⊢
        rw [ih]

/-! ## C6: folder-path composition for `file` entries -/

/-- The spec's three-case composition rule, stated in the spec's own
terms: no directory component → the parent folder's path as-is; parent
is the root → the entry's directory component as-is; otherwise the two
joined. -/
def composeFolderPath (parentPath entryDir : Str) : Str :=
  if entryDir = [] then parentPath
  else if parentPath = [] then entryDir
  else path_join parentPath entryDir

/-- Unfolding lemma: a `file` entry ensures the folder at the composed
path and inserts the patched file there. -/
theorem process_file_entry_unfold (baseDir : Str) (root : VFolder)
    (parentPath path source : Str) (mimeOv : Option Str) (meta : JObj) :
    process_entry baseDir root parentPath (.fileE path source mimeOv meta) =
      (let r := atEnsured root
        (tokens (composeFolderPath parentPath (path_dirname path)))
        (insert_file_patched (path_basename path) (path_join baseDir source)
          (filePatch mimeOv meta))
       if r.2 then .ok r.1 else .error .duplicate) := rfl

/-- C6: a `file` entry is processed by composing the final folder path
from the current parent folder's path and the entry path's directory
component by exactly the three-case rule `composeFolderPath`, ensuring
the folder at that composed path (from the tree root), and inserting the
file — named by the entry path's basename, sourced from the base
directory joined with the entry's source — into that ensured folder. -/
theorem process_file_entry_composition (baseDir : Str) (root : VFolder)
    (parentPath path source : Str) (mimeOv : Option Str) (meta : JObj) :
    process_entry baseDir root parentPath (.fileE path source mimeOv meta) =
      (let r := atEnsured root
        (tokens (composeFolderPath parentPath (path_dirname path)))
        (insert_file_patched (path_basename path) (path_join baseDir source)
          (filePatch mimeOv meta))
       if r.2 then .ok r.1 else .error .duplicate) :=
  process_file_entry_unfold baseDir root parentPath path source mimeOv meta

/-! ## C2: duplicate files — fatal for `file` entries, skipped for globs -/

/-- The full target path a glob entry resolves against, composed from
the parent folder's path (`process_glob_entry`). -/
def glob_full_target (parentPath target : Str) : Str :=
  if parentPath = [] then target else path_join parentPath target

/-- The virtual path `glob_callback` derives for a matched real path:
full target joined with the match's basename. -/
def glob_virtual_path (parentPath target m : Str) : Str :=
  path_join (glob_full_target parentPath target) (path_basename m)

/-- C2: the duplicate-handling asymmetry.  (1) An explicit `file` entry
whose composed virtual location already holds a file with that name
makes `process_entry` fail with the duplicate-entry error; (2) an entry
error aborts the whole entries loop (later entries are never touched);
(3) a glob entry always completes with `.ok`; (4) a glob match whose
derived virtual path names an already-present file leaves the tree as
mere folder-ensuring found it — the match is silently skipped. -/
theorem duplicate_file_fatal_glob_duplicate_skipped (baseDir : Str)
    (root : VFolder) (parentPath path source : Str) (mimeOv : Option Str)
    (meta : JObj) (e : Entry) (es : List Entry) (err : CErr)
    (ms : List Str) (target m : Str) (gmeta : JObj) :
    ((folder_find_file
        (ensNode root (tokens (composeFolderPath parentPath (path_dirname path))))
        (path_basename path)).isSome = true →
      process_entry baseDir root parentPath (.fileE path source mimeOv meta)
        = .error .duplicate) ∧
    (process_entry baseDir root parentPath e = .error err →
      process_entries baseDir root parentPath (e :: es) = .error err) ∧
    (process_entry baseDir root parentPath (.globE ms target gmeta)
      = .ok (process_glob_entry root parentPath target gmeta ms)) ∧
    ((folder_find_file
        (ensNode root (tokens (path_dirname (glob_virtual_path parentPath target m))))
        (path_basename (glob_virtual_path parentPath target m))).isSome = true →
      glob_callback (glob_full_target parentPath target) gmeta root m
        = (vfs_ensure_folder root
            (path_dirname (glob_virtual_path parentPath target m))).1) := by
  refine ⟨?_, ?_, rfl, ?_⟩
  · intro h
    rw [process_file_entry_unfold]
    have hsnd := atEnsured_snd
      (tokens (composeFolderPath parentPath (path_dirname path))) root
      (insert_file_patched (path_basename path) (path_join baseDir source)
        (filePatch mimeOv meta))
    rw [insert_file_patched_duplicate _ _ _ _ h] at hsnd
    simp only [hsnd, Bool.false_eq_true, if_false]
  · intro h
    simp only [process_entries, h]
  · intro h
    show (atEnsured root
        (tokens (path_dirname (glob_virtual_path parentPath target m)))
        (insert_file_patched (path_basename (glob_virtual_path parentPath target m)) m
          (fun fl => { fl with metadata := load_metadata gmeta fl.metadata }))).1
      = (vfs_ensure_folder root
          (path_dirname (glob_virtual_path parentPath target m))).1
    apply atEnsured_fst_eq
    rw [insert_file_patched_duplicate _ _ _ _ h]

/-! ## C10: glob metadata reaches new files only -/

/-- The token walk to the folder enclosing a glob match's virtual path. -/
def glob_folder_tokens (parentPath target m : Str) : List Str :=
  tokens (path_dirname (glob_virtual_path parentPath target m))

/-- The filename component of a glob match's virtual path. -/
def glob_file_name (parentPath target m : Str) : Str :=
  path_basename (glob_virtual_path parentPath target m)

/-- C10 (per match, the unit of a glob's expansion): when the derived
virtual path is not yet present, the inserted file carries, in object
order, exactly the string-valued pairs of the glob entry's metadata
object (and the matched real path as its source); when the derived path
is already present, the existing file — metadata included — is left
exactly as it was. -/
theorem glob_metadata_new_files_only (root : VFolder)
    (parentPath target m : Str) (gmeta : JObj) :
    (folder_find_file (ensNode root (glob_folder_tokens parentPath target m))
        (glob_file_name parentPath target m) = none →
      folder_find_file
        (ensNode (glob_callback (glob_full_target parentPath target) gmeta root m)
          (glob_folder_tokens parentPath target m))
        (glob_file_name parentPath target m)
        = some ⟨glob_file_name parentPath target m,
                joinPath
                  (ensNode root (glob_folder_tokens parentPath target m)).path
                  (glob_file_name parentPath target m),
                m,
                mime_from_path (glob_file_name parentPath target m),
                stringPairs gmeta⟩) ∧
    (∀ fl,
      folder_find_file (ensNode root (glob_folder_tokens parentPath target m))
        (glob_file_name parentPath target m) = some fl →
      folder_find_file
        (ensNode (glob_callback (glob_full_target parentPath target) gmeta root m)
          (glob_folder_tokens parentPath target m))
        (glob_file_name parentPath target m) = some fl) := by
  have hcb : glob_callback (glob_full_target parentPath target) gmeta root m
      = (atEnsured root (glob_folder_tokens parentPath target m)
          (insert_file_patched (glob_file_name parentPath target m) m
            (fun fl => { fl with metadata := load_metadata gmeta fl.metadata }))).1 := rfl
  have hwalk := ensNode_atEnsured (glob_folder_tokens parentPath target m) root
    (insert_file_patched (glob_file_name parentPath target m) m
      (fun fl => { fl with metadata := load_metadata gmeta fl.metadata }))
    (fun x => insert_file_patched_fst_name _ _ _ x)
  constructor
  · intro h
    rw [hcb, hwalk]
    cases hnode : ensNode root (glob_folder_tokens parentPath target m) with
    | mk nm p fs cs mm =>
      rw [hnode] at h
      have hfs : fs.find? (fun x => x.name = glob_file_name parentPath target m)
          = none := h
      unfold insert_file_patched
      rw [vfs_add_file_fresh nm p fs cs mm _ m h]
      simp only [update_file, folder_find_file, VFolder.files]
      rw [update_file_list_append _ _ _ _ hfs rfl]
      rw [find?_append_last _ _ _ hfs rfl]
      rw [load_metadata_eq]
      simp [VFolder.path]
  · intro fl h
    rw [hcb, hwalk]
    rw [insert_file_patched_duplicate _ _ _ _ (by rw [h]; rfl)]
    exact h

/-- Glob-entry metadata object with one string pair and one non-string
pair. -/
def gmWit : JObj := [("a".data, .jstr "1".data), ("b".data, .jother)]

theorem glob_metadata_new_files_only_witness :
    folder_find_file
      (ensNode
        (glob_callback (glob_full_target [] "t".data) gmWit vfs_create_root
          "x.png".data)
        (glob_folder_tokens [] "t".data "x.png".data))
      (glob_file_name [] "t".data "x.png".data)
      = some ⟨"x.png".data, "t/x.png".data, "x.png".data, "image/png".data,
              [("a".data, "1".data)]⟩ := by
  have h := (glob_metadata_new_files_only vfs_create_root [] "t".data
    "x.png".data gmWit).1 (by decide)
  rw [h]
  decide

/-! ## C4: the path invariant over the builder operations -/

mutual
/-- The path invariant of the spec: every file's (and every child
folder's) stored path is its parent's path joined with its own name
(just the name when the parent's path is empty). -/
def pathOk : VFolder → Bool
  | .mk _ p fs cs _ =>
    fs.all (fun fl => decide (fl.path = joinPath p fl.name)) && pathOkList p cs
def pathOkList : Str → List VFolder → Bool
  | _, [] => true
  | p, c :: cs =>
    (decide (c.path = joinPath p c.name) && pathOk c) && pathOkList p cs
end

theorem pathOk_mk (n p : Str) (fs : List VFile) (cs : List VFolder)
    (m : MetaList) :
    pathOk (.mk n p fs cs m)
      = (fs.all (fun fl => decide (fl.path = joinPath p fl.name))
          && pathOkList p cs) := by
  rw [pathOk]

theorem pathOkList_iff (p : Str) (cs : List VFolder) :
    pathOkList p cs = true
      ↔ ∀ c ∈ cs, c.path = joinPath p c.name ∧ pathOk c = true := by
  induction cs with
  | nil => simp [pathOkList]
  | cons c cs ih =>
    rw [pathOkList]
    simp only [Bool.and_eq_true, decide_eq_true_eq, List.mem_cons, ih]
    constructor
    · rintro ⟨⟨h1, h2⟩, h3⟩ x hx
      rcases hx with rfl | hx
      · exact ⟨h1, h2⟩
      · exact h3 x hx
    · intro h
      exact ⟨⟨(h c (.inl rfl)).1, (h c (.inl rfl)).2⟩,
             fun x hx => h x (.inr hx)⟩

/-- Member-wise induction principle for the nested tree. -/
theorem VFolder.inductionOn {P : VFolder → Prop}
    (h : ∀ n p fs cs m, (∀ c ∈ cs, P c) → P (.mk n p fs cs m)) :
    ∀ t, P t
  | .mk n p fs cs m => h n p fs cs m (fun c hc => VFolder.inductionOn h c)
termination_by t => sizeOf t
decreasing_by
  have := List.sizeOf_lt_of_mem hc
  simp only [VFolder.mk.sizeOf_spec]
  omega

mutual
/-- Every file of the tree paired with its parent folder's path. -/
def filesWithParent : VFolder → List (Str × VFile)
  | .mk _ p fs cs _ => fs.map (fun fl => (p, fl)) ++ filesWithParentList cs
def filesWithParentList : List VFolder → List (Str × VFile)
  | [] => []
  | c :: cs => filesWithParent c ++ filesWithParentList cs
end

theorem filesWithParentList_mem (pr : Str × VFile) (cs : List VFolder) :
    pr ∈ filesWithParentList cs ↔ ∃ c ∈ cs, pr ∈ filesWithParent c := by
  induction cs with
  | nil => simp [filesWithParentList]
  | cons c cs ih =>
    rw [filesWithParentList]
    simp only [List.mem_append, ih, List.mem_cons]
    constructor
    · rintro (h | ⟨x, hx, hpr⟩)
      · exact ⟨c, .inl rfl, h⟩
      · exact ⟨x, .inr hx, hpr⟩
    · rintro ⟨x, rfl | hx, hpr⟩
      · exact .inl hpr
      · exact .inr ⟨x, hx, hpr⟩

/-- A tree satisfying `pathOk` satisfies the claim's per-file equation. -/
theorem pathOk_filesWithParent (t : VFolder) (ht : pathOk t = true) :
    ∀ pr ∈ filesWithParent t, pr.2.path = joinPath pr.1 pr.2.name := by
  induction t using VFolder.inductionOn with
  | _ n p fs cs m ih =>
    intro pr hpr
    rw [pathOk_mk, Bool.and_eq_true] at ht
    rw [filesWithParent, List.mem_append] at hpr
    rcases hpr with hpr | hpr
    · rcases List.mem_map.1 hpr with ⟨fl, hfl, rfl⟩
      have := (List.all_eq_true.1 ht.1) fl hfl
      simpa using this
    · rcases (filesWithParentList_mem pr cs).1 hpr with ⟨c, hc, hprc⟩
      have hcok := (pathOkList_iff p cs).1 ht.2 c hc
      exact ih c hc hcok.2 pr hprc

/-- Locates the node a caller-held folder pointer designates (the child
chain `loc` from the root) and applies the mutation `g` there; a
dangling location mutates nothing (no such pointer is obtainable). -/
def modifyAt : VFolder → List Str → (VFolder → VFolder) → VFolder
  | f, [], g => g f
  | f, t :: ts, g =>
    match folder_find_child f t with
    | some c => setChild f t (modifyAt c ts g)
    | none => f
termination_by structural _ ts _ => ts

/-- The tree-building operations `src/vfs.c` exposes, each applied at a
node designated by its child chain from the root. -/
inductive BuildOp where
  | addFolderAt (loc : List Str) (n : Str)
  | addFileAt (loc : List Str) (n source : Str)
  | ensureAt (loc : List Str) (p : Str)
  | folderMetaAt (loc : List Str) (k v : Str)
  | fileMetaAt (loc : List Str) (n k v : Str)
  | setMimeAt (loc : List Str) (n mime : Str)

/-- Embedding of `vfs_add_metadata(&folder->metadata, k, v)`. -/
def folder_add_metadata (k v : Str) : VFolder → VFolder
  | .mk nm p fs cs m => .mk nm p fs cs (vfs_add_metadata m k v)

def applyOp (t : VFolder) : BuildOp → VFolder
  | .addFolderAt loc n => modifyAt t loc (fun f => (vfs_add_folder f n).1)
  | .addFileAt loc n s => modifyAt t loc (fun f => (vfs_add_file f n s).1)
  | .ensureAt loc p => modifyAt t loc (fun f => (vfs_ensure_folder f p).1)
  | .folderMetaAt loc k v => modifyAt t loc (folder_add_metadata k v)
  | .fileMetaAt loc n k v =>
    modifyAt t loc (update_file n
      (fun fl => { fl with metadata := vfs_add_metadata fl.metadata k v }))
  | .setMimeAt loc n mi =>
    modifyAt t loc (update_file n (fun fl => { fl with mime := mi }))

/-- A whole build: the operations applied in order to a fresh root. -/
def applyOps (ops : List BuildOp) : VFolder :=
  ops.foldl applyOp vfs_create_root

theorem modifyAt_name (loc : List Str) (g : VFolder → VFolder)
    (hname : ∀ f, (g f).name = f.name) :
    ∀ t, (modifyAt t loc g).name = t.name := by
  induction loc with
  | nil => exact hname
  | cons t ts ih =>
    intro f
    rw [modifyAt]
    cases folder_find_child f t with
    | some c => rw [setChild_name]
    | none => rfl

theorem modifyAt_path (loc : List Str) (g : VFolder → VFolder)
    (hpath : ∀ f, (g f).path = f.path) :
    ∀ t, (modifyAt t loc g).path = t.path := by
  induction loc with
  | nil => exact hpath
  | cons t ts ih =>
    intro f
    rw [modifyAt]
    cases folder_find_child f t with
    | some c => rw [setChild_path]
    | none => rfl

/-- Replacing (or appending) a correctly-pathed, invariant-satisfying
child keeps the children check. -/
theorem pathOkList_setChildList (p t : Str) (c2 : VFolder)
    (hn : c2.name = t) (hp : c2.path = joinPath p c2.name)
    (hc : pathOk c2 = true) :
    ∀ cs : List VFolder, pathOkList p cs = true →
      pathOkList p (setChild.setChildList cs t c2) = true := by
  intro cs
  induction cs with
  | nil =>
    intro _
    simp [setChild.setChildList, pathOkList, hp, hc]
  | cons x xs ih =>
    intro hOk
    rw [pathOkList, Bool.and_eq_true, Bool.and_eq_true] at hOk
    by_cases hx : x.name = t
    · simp only [setChild.setChildList, if_pos hx]
      rw [pathOkList]
      simp [hp, hc, hOk.2]
    · simp only [setChild.setChildList, if_neg hx]
      rw [pathOkList]
      simp [hOk.1.1, hOk.1.2, ih hOk.2]

theorem pathOk_setChild (n p t : Str) (fs : List VFile) (cs : List VFolder)
    (m : MetaList) (c2 : VFolder)
    (hfs : fs.all (fun fl => decide (fl.path = joinPath p fl.name)) = true)
    (hcs : pathOkList p (setChild.setChildList cs t c2) = true) :
    pathOk (setChild (.mk n p fs cs m) t c2) = true := by
  simp only [setChild]
  rw [pathOk_mk, Bool.and_eq_true]
  exact ⟨hfs, hcs⟩

/-- A freshly allocated child folder satisfies the invariant. -/
theorem pathOk_newChildFolder (f : VFolder) (n : Str) :
    pathOk (newChildFolder f n) = true := by
  rw [newChildFolder, pathOk_mk]
  rfl

theorem newChildFolder_path (f : VFolder) (n : Str) :
    (newChildFolder f n).path = joinPath f.path n := rfl

/-- Operation `vfs_add_folder` preserves the invariant at its node. -/
theorem pathOk_add_folder (f : VFolder) (n : Str) (hf : pathOk f = true) :
    pathOk ((vfs_add_folder f n).1) = true := by
  unfold vfs_add_folder
  cases hfc : folder_find_child f n with
  | some c => exact hf
  | none =>
    cases f with
    | mk nm p fs cs m =>
      rw [pathOk_mk, Bool.and_eq_true] at hf
      apply pathOk_setChild _ _ _ _ _ _ _ hf.1
      apply pathOkList_setChildList _ _ _ rfl ?_ (pathOk_newChildFolder _ n) _ hf.2
      rw [newChildFolder_path]
      rfl

/-- Operation `vfs_add_file` preserves the invariant at its node. -/
theorem pathOk_add_file (f : VFolder) (n s : Str) (hf : pathOk f = true) :
    pathOk ((vfs_add_file f n s).1) = true := by
  unfold vfs_add_file
  cases hff : folder_find_file f n with
  | some fl => exact hf
  | none =>
    cases f with
    | mk nm p fs cs m =>
      rw [pathOk_mk, Bool.and_eq_true] at hf
      rw [pathOk_mk, Bool.and_eq_true]
      refine ⟨?_, hf.2⟩
      rw [List.all_append, Bool.and_eq_true]
      refine ⟨hf.1, ?_⟩
      simp [VFolder.path, joinPath]

theorem atEnsured_path {α : Type} (ts : List Str) (f : VFolder)
    (g : VFolder → VFolder × α) (hg : ∀ x, ((g x).1).path = x.path) :
    ((atEnsured f ts g).1).path = f.path := by
  cases ts with
  | nil => exact hg f
  | cons t ts => simp [atEnsured_cons, setChild_path]

/-- Walker `atEnsured` (hence `vfs_ensure_folder`) preserves the
invariant when its node rewrite does and keeps name and path. -/
theorem pathOk_atEnsured (ts : List Str) {α : Type}
    (g : VFolder → VFolder × α)
    (hname : ∀ f, ((g f).1).name = f.name)
    (hpath : ∀ f, ((g f).1).path = f.path)
    (hg : ∀ f, pathOk f = true → pathOk ((g f).1) = true) :
    ∀ f, pathOk f = true → pathOk ((atEnsured f ts g).1) = true := by
  induction ts with
  | nil => exact hg
  | cons t ts ih =>
    intro f hf
    rw [atEnsured_cons]
    cases f with
    | mk nm p fs cs m =>
      rw [pathOk_mk, Bool.and_eq_true] at hf
      have hfoc : pathOk (findOrCreateChild (.mk nm p fs cs m) t) = true
          ∧ (findOrCreateChild (.mk nm p fs cs m) t).path
              = joinPath p (findOrCreateChild (.mk nm p fs cs m) t).name := by
        unfold findOrCreateChild
        cases hfc : folder_find_child (.mk nm p fs cs m) t with
        | some c =>
          have hc := (pathOkList_iff p cs).1 hf.2 c
            (List.mem_of_find?_eq_some hfc)
          exact ⟨hc.2, hc.1⟩
        | none =>
          refine ⟨pathOk_newChildFolder _ t, ?_⟩
          rw [newChildFolder_path]
          rfl
      have hrec := ih (findOrCreateChild (.mk nm p fs cs m) t) hfoc.1
      apply pathOk_setChild _ _ _ _ _ _ _ hf.1
      apply pathOkList_setChildList p t _ ?_ ?_ hrec _ hf.2
      · rw [atEnsured_name ts _ g hname]
        exact findOrCreateChild_name _ t
      · rw [atEnsured_path ts _ g hpath, atEnsured_name ts _ g hname]
        exact hfoc.2

theorem all_update_file_list (n : Str) (g : VFile → VFile) (P : VFile → Bool)
    (hP : ∀ fl, P (g fl) = P fl) :
    ∀ fs : List VFile, fs.all P = true → (update_file_list n g fs).all P = true := by
  intro fs
  induction fs with
  | nil => intro h; exact h
  | cons fl fs ih =>
    intro h
    rw [List.all_cons, Bool.and_eq_true] at h
    by_cases hn : fl.name = n
    · simp only [update_file_list, if_pos hn, List.all_cons, Bool.and_eq_true]
      exact ⟨by rw [hP]; exact h.1, h.2⟩
    · simp only [update_file_list, if_neg hn, List.all_cons, Bool.and_eq_true]
      exact ⟨h.1, ih h.2⟩

/-- Patching a file in place preserves the invariant as long as the
patch keeps the file's name and path (every modelled patch does). -/
theorem pathOk_update_file (n : Str) (g : VFile → VFile)
    (hname : ∀ fl, (g fl).name = fl.name)
    (hpath : ∀ fl, (g fl).path = fl.path)
    (f : VFolder) (hf : pathOk f = true) :
    pathOk (update_file n g f) = true := by
  cases f with
  | mk nm p fs cs m =>
    simp only [update_file]
    rw [pathOk_mk, Bool.and_eq_true] at hf ⊢
    refine ⟨?_, hf.2⟩
    apply all_update_file_list n g _ ?_ fs hf.1
    intro fl
    rw [hname, hpath]

theorem vfs_add_folder_fst_name (f : VFolder) (n : Str) :
    ((vfs_add_folder f n).1).name = f.name := by
  unfold vfs_add_folder
  cases folder_find_child f n with
  | some c => rfl
  | none => exact setChild_name f n _

theorem vfs_add_folder_fst_path (f : VFolder) (n : Str) :
    ((vfs_add_folder f n).1).path = f.path := by
  unfold vfs_add_folder
  cases folder_find_child f n with
  | some c => rfl
  | none => exact setChild_path f n _

theorem vfs_add_file_fst_path (f : VFolder) (n s : Str) :
    ((vfs_add_file f n s).1).path = f.path := by
  cases f with
  | mk nm p fs cs m =>
    unfold vfs_add_file
    cases folder_find_file (.mk nm p fs cs m) n <;> rfl

theorem update_file_path (n : Str) (g : VFile → VFile) (f : VFolder) :
    (update_file n g f).path = f.path := by
  cases f; rfl

theorem folder_add_metadata_name (k v : Str) (f : VFolder) :
    (folder_add_metadata k v f).name = f.name := by
  cases f; rfl

theorem folder_add_metadata_path (k v : Str) (f : VFolder) :
    (folder_add_metadata k v f).path = f.path := by
  cases f; rfl

theorem pathOk_folder_add_metadata (k v : Str) (f : VFolder)
    (hf : pathOk f = true) : pathOk (folder_add_metadata k v f) = true := by
  cases f with
  | mk nm p fs cs m =>
    simp only [folder_add_metadata]
    rw [pathOk_mk]
    rw [pathOk_mk] at hf
    exact hf

/-- A pointer-addressed mutation that preserves the invariant and the
node's name and path preserves the invariant of the whole tree. -/
theorem pathOk_modifyAt (loc : List Str) (g : VFolder → VFolder)
    (hname : ∀ f, (g f).name = f.name)
    (hpath : ∀ f, (g f).path = f.path)
    (hg : ∀ f, pathOk f = true → pathOk (g f) = true) :
    ∀ t, pathOk t = true → pathOk (modifyAt t loc g) = true := by
  induction loc with
  | nil => exact hg
  | cons t ts ih =>
    intro f hf
    cases f with
    | mk nm p fs cs m =>
      rw [modifyAt]
      cases hfc : folder_find_child (.mk nm p fs cs m) t with
      | none => exact hf
      | some c =>
        rw [pathOk_mk, Bool.and_eq_true] at hf
        have hcinfo := (pathOkList_iff p cs).1 hf.2 c
          (List.mem_of_find?_eq_some hfc)
        apply pathOk_setChild _ _ _ _ _ _ _ hf.1
        apply pathOkList_setChildList p t _ ?_ ?_ (ih c hcinfo.2) _ hf.2
        · rw [modifyAt_name ts g hname]
          exact folder_find_child_name hfc
        · rw [modifyAt_path ts g hpath, modifyAt_name ts g hname]
          exact hcinfo.1

/-- Every single builder operation preserves the invariant. -/
theorem pathOk_applyOp (t : VFolder) (op : BuildOp) (ht : pathOk t = true) :
    pathOk (applyOp t op) = true := by
  cases op with
  | addFolderAt loc n =>
    exact pathOk_modifyAt loc _ (fun f => vfs_add_folder_fst_name f n)
      (fun f => vfs_add_folder_fst_path f n)
      (fun f hf => pathOk_add_folder f n hf) t ht
  | addFileAt loc n s =>
    exact pathOk_modifyAt loc _ (fun f => vfs_add_file_fst_name f n s)
      (fun f => vfs_add_file_fst_path f n s)
      (fun f hf => pathOk_add_file f n s hf) t ht
  | ensureAt loc p =>
    exact pathOk_modifyAt loc _
      (fun f => atEnsured_name (tokens p) f _ (fun _ => rfl))
      (fun f => atEnsured_path (tokens p) f _ (fun _ => rfl))
      (fun f hf => pathOk_atEnsured (tokens p) _ (fun _ => rfl) (fun _ => rfl)
        (fun _ h => h) f hf) t ht
  | folderMetaAt loc k v =>
    exact pathOk_modifyAt loc _ (folder_add_metadata_name k v)
      (folder_add_metadata_path k v)
      (pathOk_folder_add_metadata k v) t ht
  | fileMetaAt loc n k v =>
    exact pathOk_modifyAt loc
      (update_file n (fun fl => { fl with metadata := vfs_add_metadata fl.metadata k v }))
      (fun f => update_file_name n _ f)
      (fun f => update_file_path n _ f)
      (fun f hf => pathOk_update_file n
        (fun fl => { fl with metadata := vfs_add_metadata fl.metadata k v })
        (fun _ => rfl) (fun _ => rfl) f hf) t ht
  | setMimeAt loc n mi =>
    exact pathOk_modifyAt loc
      (update_file n (fun fl => { fl with mime := mi }))
      (fun f => update_file_name n _ f)
      (fun f => update_file_path n _ f)
      (fun f hf => pathOk_update_file n (fun fl => { fl with mime := mi })
        (fun _ => rfl) (fun _ => rfl) f hf) t ht

/-- The invariant holds at creation and after any build. -/
theorem pathOk_applyOps (ops : List BuildOp) :
    pathOk (applyOps ops) = true := by
  have base : pathOk vfs_create_root = true := by decide
  rw [applyOps]
  generalize hinit : vfs_create_root = t at base ⊢
  clear hinit
  induction ops generalizing t with
  | nil => exact base
  | cons op ops ih =>
    rw [List.foldl_cons]
    exact ih (applyOp t op) (pathOk_applyOp t op base)

/-- C4: in every tree built from a fresh root by any sequence of builder
operations, every file's path equals its parent folder's path joined
with `'/'` and the file's name, or just the file's name when the parent
is the root — the unique folder whose path is the empty string.  The
invariant is established when `vfs_add_file` creates the file and kept
by every other operation. -/
theorem file_path_join_invariant (ops : List BuildOp) :
    ∀ pr ∈ filesWithParent (applyOps ops),
      pr.2.path = (if pr.1 = [] then pr.2.name else pr.1 ++ '/' :: pr.2.name) := by
  intro pr hpr
  have h := pathOk_filesWithParent (applyOps ops) (pathOk_applyOps ops) pr hpr
  rw [h, joinPath]

/-- A build: `ensure_folder("a/b")` followed by `add_file` at `a/b`. -/
def opsWit : List BuildOp :=
  [.ensureAt [] "a/b".data,
   .addFileAt ["a".data, "b".data] "c.txt".data "s".data]

/-- The resulting (parent path, file) pair. -/
def prWit : Str × VFile :=
  ("a/b".data,
   ⟨"c.txt".data, "a/b/c.txt".data, "s".data, "text/plain".data, []⟩)

theorem file_path_join_invariant_witness :
    prWit ∈ filesWithParent (applyOps opsWit) ∧
    prWit.2.path
      = (if prWit.1 = [] then prWit.2.name else prWit.1 ++ '/' :: prWit.2.name) :=
  ⟨by decide, file_path_join_invariant opsWit prWit (by decide)⟩

/-- A root folder already holding a file named `f.txt`. -/
def dupRoot : VFolder :=
  .mk [] [] [⟨"f.txt".data, "f.txt".data, "real/f.txt".data,
              "text/plain".data, []⟩] [] []

theorem duplicate_file_fatal_glob_duplicate_skipped_witness :
    process_entry [] dupRoot [] (.fileE "f.txt".data "src.txt".data none [])
      = .error .duplicate ∧
    glob_callback (glob_full_target [] []) [] dupRoot "f.txt".data = dupRoot := by
  constructor
  · exact (duplicate_file_fatal_glob_duplicate_skipped [] dupRoot [] "f.txt".data
      "src.txt".data none [] (.globE [] [] []) [] .duplicate [] [] "f.txt".data []).1
      (by decide)
  · have h := (duplicate_file_fatal_glob_duplicate_skipped [] dupRoot []
      "f.txt".data "src.txt".data none [] (.globE [] [] []) [] .duplicate
      [] [] "f.txt".data []).2.2.2 (by decide)
    rw [h]
    decide
